import Mathlib

/-!
Verification of `src/mcp_agent/config.py` (mcp-agent configuration module).

The development shallowly embeds the configuration-resolution core of the
module:

* `Val` / association lists model the key-value trees produced by
  `yaml.safe_load` (Python `dict`s are insertion-ordered maps with unique
  keys; we model them as association lists, and key uniqueness is carried as
  a `Nodup` hypothesis where a proof needs it).
* `deep_merge` is the inner function of `get_settings` (config.py lines
  346-358); the Python `for key, value in update.items()` loop becomes
  recursion over the update list, the first argument playing the role of the
  accumulating `merged` dictionary (initialised with `base.copy()`).
* `findConfigAux` is `Settings._find_config` (lines 323-336); a directory is
  the list of path components of the current working directory, innermost
  first, so `Path.cwd()` is the full list, `.parent` is `List.tail`, and the
  filesystem root is `[]` (the fixpoint of `parent`, as in pathlib).
* `get_settings` (lines 343-391) is modelled as a pure state transformer over
  the module-level `_settings` slot, parametrised by an abstract filesystem
  `FS`; it additionally returns the trace of filesystem operations performed,
  so that claims about operations *not* performed are statable.
* `mkMCPRootSettings` models pydantic construction of `MCPRootSettings`
  with its `validate_uri` field validator (lines 21-41).
* A second, heap-based embedding `hDeepMerge` models the same `deep_merge`
  code at the level of mutable dictionary objects (addresses into a store),
  in order to state the frame property "the base argument is not mutated",
  which is invisible in the pure embedding.
-/

namespace McpAgent

/-- A YAML value as produced by `yaml.safe_load`: scalars, lists, and
string-keyed mappings.  Python `dict`s are modelled as association lists in
insertion order. -/
inductive Val : Type where
  | str : String → Val
  | int : Int → Val
  | bool : Bool → Val
  | null : Val
  | list : List Val → Val
  | dict : List (String × Val) → Val

/-- Python `update[key]` / `key in update`: first binding of `k`, if any.
(For the unique-key dictionaries produced by YAML the first binding is the
only one.) -/
def lookup : List (String × Val) → String → Option Val
  | [], _ => none
  | (k', v) :: rest, k => if k' = k then some v else lookup rest k

/-- Python `d[k] = v` on an insertion-ordered dict: an existing key keeps its
position and gets the new value; a fresh key is appended at the end. -/
def setKey : List (String × Val) → String → Val → List (String × Val)
  | [], k, v => [(k, v)]
  | (k', v') :: rest, k, v =>
    if k' = k then (k, v) :: rest else (k', v') :: setKey rest k v

/-- `deep_merge` from `get_settings` (config.py lines 346-358).  The first
argument is the accumulating `merged` dict (initially `base.copy()`), the
second the not-yet-processed items of `update`; each item is handled exactly
as the loop body does: if the key is present in `merged` with a dict value
and the update value is a dict, recursively merge, otherwise the update
value replaces wholesale. -/
def deep_merge : List (String × Val) → List (String × Val) → List (String × Val)
  | merged, [] => merged
  | merged, (k, v) :: rest =>
    match lookup merged k, v with
    | some (Val.dict bd), Val.dict ud =>
        deep_merge (setKey merged k (Val.dict (deep_merge bd ud))) rest
    | _, _ => deep_merge (setKey merged k v) rest
termination_by _ u => sizeOf u
decreasing_by
  all_goals simp_wf
  all_goals omega

/-- The value `deep_merge` stores for a key of `update`: the recursive merge
when both sides hold mappings, the update value wholesale otherwise. -/
def mergeVal : Option Val → Val → Val
  | some (Val.dict bd), Val.dict ud => Val.dict (deep_merge bd ud)
  | _, uv => uv

/-- Spec-side comparison function for C8: "base with update's top-level keys
overlaid" — one `d[k] = v` per update item, no recursion. -/
def shallow_overlay (base update : List (String × Val)) : List (String × Val) :=
  update.foldl (fun m p => setKey m p.1 p.2) base

/-! ## File locator (`Settings._find_config`, config.py lines 323-336) -/

/-- A directory, as the list of path components of the working directory,
innermost component first; `[]` is the filesystem root. `List.tail` is
`Path.parent`: the root is its own parent, exactly as in pathlib, and
`c :: rest ≠ rest` always, so the `while current_dir != current_dir.parent`
loop runs precisely while the directory is not `[]`. -/
abbrev Dir := List String

/-- A path as handled by `get_settings`: either a location produced by the
locator (`directory / filename`) or a caller-supplied path string. -/
inductive FPath : Type where
  | located : Dir → String → FPath
  | explicit : String → FPath
deriving DecidableEq

/-- The inner `for filename in filenames` loop of `Settings._find_config`:
the first candidate (in the given order) that exists in directory `d`. -/
def findFirstFile (ex : Dir → String → Bool) (d : Dir) : List String → Option String
  | [] => none
  | fn :: rest => if ex d fn then some fn else findFirstFile ex d rest

/-- The `while current_dir != current_dir.parent` loop of
`Settings._find_config`, recursing from the working directory towards the
root; `ex d fn` abstracts `(d / fn).exists()`.  Note the loop guard fails at
the root itself, so the root directory is never examined. -/
def findConfigAux (ex : Dir → String → Bool) (filenames : List String) :
    Dir → Option (Dir × String)
  | [] => none
  | c :: rest =>
    match findFirstFile ex (c :: rest) filenames with
    | some fn => some (c :: rest, fn)
    | none => findConfigAux ex filenames rest

/-- The directories `_find_config` actually examines, in order: the working
directory and each successive parent, the filesystem root excluded. -/
def examinedDirs : Dir → List Dir
  | [] => []
  | c :: rest => (c :: rest) :: examinedDirs rest

/-! ## The resolver `get_settings` (config.py lines 343-391) -/

/-- The abstract filesystem `get_settings` runs against: the working
directory, file existence, and the parsed content of each file
(`yaml.safe_load(...) or {}`, so an empty file is the empty tree). -/
structure FS where
  cwd : Dir
  fexists : FPath → Bool
  read : FPath → List (String × Val)

/-- Candidate filenames of `Settings.find_config` (lines 313-316). -/
def configFilenames : List String :=
  ["mcp-agent.config.yaml", "mcp_agent.config.yaml"]

/-- Candidate filenames of `Settings.find_secrets` (lines 318-321). -/
def secretsFilenames : List String :=
  ["mcp-agent.secrets.yaml", "mcp_agent.secrets.yaml"]

/-- `Settings.find_config`. -/
def find_config (fs : FS) : Option FPath :=
  (findConfigAux (fun d fn => fs.fexists (FPath.located d fn)) configFilenames
      fs.cwd).map (fun p => FPath.located p.1 p.2)

/-- `Settings.find_secrets`. -/
def find_secrets (fs : FS) : Option FPath :=
  (findConfigAux (fun d fn => fs.fexists (FPath.located d fn)) secretsFilenames
      fs.cwd).map (fun p => FPath.located p.1 p.2)

/-- The `Settings` pydantic object, abstracted to the merged key-value tree
it was constructed from (`Settings(**merged_settings)`); `Settings()` with no
arguments is `Settings.mk []`. -/
structure Settings where
  tree : List (String × Val)

/-- `Settings.execution_engine`, declared default `"asyncio"` (line 283).
The accessor models the absent-key and string-valued cases the resolver
claims exercise. -/
def Settings.execution_engine (s : Settings) : String :=
  match lookup s.tree "execution_engine" with
  | some (Val.str v) => v
  | _ => "asyncio"

/-- `Settings.logger.level`, declared default `"info"` (lines 232, 307). -/
def Settings.logger_level (s : Settings) : String :=
  match lookup s.tree "logger" with
  | some (Val.dict lt) =>
    (match lookup lt "level" with
     | some (Val.str v) => v
     | _ => "info")
  | _ => "info"

/-- `Settings.openai.api_key`, declared default `None` (lines 130, 298). -/
def Settings.openai_api_key (s : Settings) : Option String :=
  match lookup s.tree "openai" with
  | some (Val.dict ot) =>
    (match lookup ot "api_key" with
     | some (Val.str v) => some v
     | _ => none)
  | _ => none

/-- A filesystem operation performed by `get_settings`, recorded in the
result so that claims about operations *not* performed are statable:
invoking `Settings.find_config`, invoking `Settings.find_secrets`, and
opening/reading a file. -/
inductive Event : Type where
  | locateConfig : Event
  | locateSecrets : Event
  | readFile : FPath → Event
deriving DecidableEq

/-- Result of one `get_settings` call: the returned object, the new value of
the module-level `_settings` slot, and the trace of filesystem operations. -/
structure GetResult where
  ret : Settings
  slot : Option Settings
  events : List Event

/-- `get_settings` (config.py lines 343-391) as a pure state transformer on
the module-level `_settings` slot (`cached`).  Python truthiness is modelled
faithfully: a constructed `Settings` object is always truthy (pydantic
models define no `__bool__`), so `if _settings:` returns any cached object;
an empty `config_path` string is falsy, so
`Path(config_path) if config_path else Settings.find_config()` takes the
locator branch on `some ""` as well as on `none`.  The
`if not config_file.exists(): pass` branch and the no-config-file branch
both fall through to `_settings = Settings()`. -/
def get_settings (fs : FS) (cached : Option Settings)
    (config_path : Option String) : GetResult :=
  match cached with
  | some s => ⟨s, some s, []⟩
  | none =>
    let cfg : Option FPath × List Event :=
      match config_path with
      | some p =>
        if p = "" then (find_config fs, [Event.locateConfig])
        else (some (FPath.explicit p), [])
      | none => (find_config fs, [Event.locateConfig])
    match cfg with
    | (some config_file, ev) =>
      if fs.fexists config_file then
        let yaml_settings := fs.read config_file
        match find_secrets fs with
        | some secrets_file =>
          if fs.fexists secrets_file then
            let s := Settings.mk (deep_merge yaml_settings (fs.read secrets_file))
            ⟨s, some s,
              ev ++ [Event.readFile config_file, Event.locateSecrets,
                Event.readFile secrets_file]⟩
          else
            let s := Settings.mk yaml_settings
            ⟨s, some s, ev ++ [Event.readFile config_file, Event.locateSecrets]⟩
        | none =>
          let s := Settings.mk yaml_settings
          ⟨s, some s, ev ++ [Event.readFile config_file, Event.locateSecrets]⟩
      else
        ⟨Settings.mk [], some (Settings.mk []), ev⟩
    | (none, ev) => ⟨Settings.mk [], some (Settings.mk []), ev⟩

/-! ## `MCPRootSettings` construction (config.py lines 21-41) -/

/-- Python `s.startswith(p)`, modelled as a character-list test (Lean's own
`String.startsWith` is an opaque byte-level primitive that the kernel cannot
evaluate; on the character lists the two agree). -/
def strStartsWith (s p : String) : Bool :=
  p.toList.isPrefixOf s.toList

/-- `MCPRootSettings.validate_uri` (lines 33-39): raises `ValueError` unless
the value starts with `file://`. -/
def validate_uri (v : String) : Except String String :=
  if ¬ strStartsWith v "file://" then
    Except.error "Root URI must start with file://"
  else Except.ok v

/-- The constructed `MCPRootSettings` record (lines 21-31). -/
structure MCPRootSettings where
  uri : String
  name : Option String
  server_uri_alias : Option String

/-- Pydantic construction of `MCPRootSettings`: the
`@field_validator("uri", "server_uri_alias")` runs `validate_uri` on `uri`
and, when a value is supplied, on `server_uri_alias` (field validators do
not run on defaulted, unsupplied fields); any `ValueError` surfaces as a
construction-time `ValidationError`. -/
def mkMCPRootSettings (uri : String) (name : Option String)
    (server_uri_alias : Option String) : Except String MCPRootSettings :=
  match validate_uri uri with
  | Except.error e => Except.error e
  | Except.ok u =>
    match server_uri_alias with
    | none => Except.ok ⟨u, name, none⟩
    | some a =>
      match validate_uri a with
      | Except.error e => Except.error e
      | Except.ok a2 => Except.ok ⟨u, name, some a2⟩

/-! ## Heap model of `deep_merge` for the frame property

The pure embedding above cannot express mutation, so the claim that
`deep_merge` leaves its `base` argument unchanged is restated over an
explicit store of dictionary objects: Python dicts are heap objects
addressed by `Nat`, `merged = base.copy()` is an allocation, and
`merged[key] = ...` is an in-place store.  The frame theorem then says the
call leaves every pre-existing address — in particular `base` and all of its
nested substructure — exactly as it was. -/

/-- A run-time Python value for the heap model: `prim` abstracts any
non-dict value (scalar or list — `deep_merge` never inspects or mutates
those, only rebinds them), `ref` is a reference to a dict object in the
heap. -/
inductive HVal : Type where
  | prim : Nat → HVal
  | ref : Nat → HVal
deriving DecidableEq

/-- A dict object: insertion-ordered bindings. -/
abbrev HObj := List (String × HVal)

/-- The heap of dict objects, addressed by position; allocation appends. -/
abbrev Heap := List HObj

/-- Key lookup inside one dict object. -/
def lookupKeyH : HObj → String → Option HVal
  | [], _ => none
  | (k', v) :: rest, k => if k' = k then some v else lookupKeyH rest k

/-- Key assignment inside one dict object (existing key keeps its position,
fresh key appends). -/
def setKeyH : HObj → String → HVal → HObj
  | [], k, v => [(k, v)]
  | (k', v') :: rest, k, v =>
    if k' = k then (k, v) :: rest else (k', v') :: setKeyH rest k v

/-- `merged[key] = value`: in-place mutation of the dict object at address
`a`. -/
def hSetItem (h : Heap) (a : Nat) (k : String) (v : HVal) : Heap :=
  match h[a]? with
  | some obj => h.set a (setKeyH obj k v)
  | none => h

/-- The Python condition `key in merged and isinstance(merged[key], dict)
and isinstance(value, dict)`: the pair of dict addresses when it holds. -/
def dictPair : Option HVal → HVal → Option (Nat × Nat)
  | some (HVal.ref b), HVal.ref u => some (b, u)
  | _, _ => none

/-- The `for key, value in update.items()` loop of `deep_merge`, mutating
the freshly-allocated `merged` object at address `aM`; `rec` is the
recursive `deep_merge` call.  The loop guard reads `merged`'s current state
each iteration. -/
def hMergeItems (rec : Heap → Nat → Nat → Option (Heap × Nat)) (h : Heap)
    (aM : Nat) : List (String × HVal) → Option (Heap × Nat)
  | [] => some (h, aM)
  | (k, v) :: rest =>
    match h[aM]? with
    | none => none
    | some mObj =>
      match dictPair (lookupKeyH mObj k) v with
      | some bu =>
        match rec h bu.1 bu.2 with
        | none => none
        | some r => hMergeItems rec (hSetItem r.1 aM k (HVal.ref r.2)) aM rest
      | none => hMergeItems rec (hSetItem h aM k v) aM rest

/-- `deep_merge` at the heap level: `merged = base.copy()` allocates a fresh
dict with the same bindings (values shared), then the item loop mutates only
that fresh object, and the address of the fresh object is returned.  `fuel`
bounds the dict-nesting depth (Python itself would exhaust its recursion
limit on a cyclic heap); the frame theorem below holds for every fuel. -/
def hDeepMerge : Nat → Heap → Nat → Nat → Option (Heap × Nat)
  | 0, _, _, _ => none
  | fuel + 1, h, aBase, aUpd =>
    match h[aBase]? with
    | none => none
    | some baseObj =>
      match h[aUpd]? with
      | none => none
      | some updObj => hMergeItems (hDeepMerge fuel) (h ++ [baseObj]) h.length updObj

/-! ## Concrete fixtures used by the witness theorems -/

/-- Working directory `/home`; no file exists anywhere. -/
def fsEmpty : FS where
  cwd := ["home"]
  fexists := fun _ => false
  read := fun _ => []

/-- Working directory `/home`; a secrets file `mcp-agent.secrets.yaml`
exists in `/home` (holding `{openai: {api_key: "secret-key"}}`) but no
config file exists at all. -/
def fsSecretsOnly : FS where
  cwd := ["home"]
  fexists := fun pa =>
    match pa with
    | FPath.located d fn => d == ["home"] && fn == "mcp-agent.secrets.yaml"
    | FPath.explicit _ => false
  read := fun _ => [("openai", Val.dict [("api_key", Val.str "secret-key")])]

/-- Working directory `/proj`; an explicit config file `/proj/config.yaml`
holding `{openai: {api_key: "cfg-key"}}`, and a located secrets file
`/proj/mcp-agent.secrets.yaml` holding `{openai: {api_key: "secret-key"}}`. -/
def fsCfgSecrets : FS where
  cwd := ["proj"]
  fexists := fun pa =>
    match pa with
    | FPath.located d fn => d == ["proj"] && fn == "mcp-agent.secrets.yaml"
    | FPath.explicit p => p == "/proj/config.yaml"
  read := fun pa =>
    match pa with
    | FPath.located _ _ => [("openai", Val.dict [("api_key", Val.str "secret-key")])]
    | FPath.explicit _ => [("openai", Val.dict [("api_key", Val.str "cfg-key")])]

/-- A four-object heap: object 0 is the base `{a: ref 1}`, object 1 its
nested dict `{x:1, y:2}`, object 2 the update `{a: ref 3}`, object 3 its
nested dict `{y:3}`. -/
def heapExample : Heap :=
  [[("a", HVal.ref 1)], [("x", HVal.prim 1), ("y", HVal.prim 2)],
    [("a", HVal.ref 3)], [("y", HVal.prim 3)]]

/-- The run of `hDeepMerge` on `heapExample`: two fresh objects are
allocated (the copied merge results), the four original objects are
untouched, and the returned address is the fresh top-level merge. -/
def heapExampleOut : Heap × Nat :=
  ([[("a", HVal.ref 1)], [("x", HVal.prim 1), ("y", HVal.prim 2)],
    [("a", HVal.ref 3)], [("y", HVal.prim 3)],
    [("a", HVal.ref 5)], [("x", HVal.prim 1), ("y", HVal.prim 3)]], 4)

/-! ## Lemmas about `lookup`, `setKey` and `deep_merge` -/

theorem deep_merge_nil (m : List (String × Val)) : deep_merge m [] = m := by
  simp [deep_merge]

theorem deep_merge_cons (m : List (String × Val)) (k : String) (v : Val)
    (rest : List (String × Val)) :
    deep_merge m ((k, v) :: rest) =
      match lookup m k, v with
      | some (Val.dict bd), Val.dict ud =>
          deep_merge (setKey m k (Val.dict (deep_merge bd ud))) rest
      | _, _ => deep_merge (setKey m k v) rest := by
  rw [deep_merge.eq_def]

theorem lookup_setKey_self (d : List (String × Val)) (k : String) (v : Val) :
    lookup (setKey d k v) k = some v := by
  induction d with
  | nil => simp [setKey, lookup]
  | cons p rest ih =>
    obtain ⟨k', v'⟩ := p
    by_cases h : k' = k <;> simp [setKey, lookup, h, ih]

theorem lookup_setKey_ne (d : List (String × Val)) (k' k : String) (v : Val)
    (h : k' ≠ k) : lookup (setKey d k' v) k = lookup d k := by
  induction d with
  | nil => simp [setKey, lookup, h]
  | cons p rest ih =>
    obtain ⟨k2, v2⟩ := p
    by_cases h2 : k2 = k' <;> simp [setKey, lookup, h2, h, ih]

theorem lookup_deep_merge_not_mem (u : List (String × Val)) :
    ∀ (m : List (String × Val)) (k : String), k ∉ u.map Prod.fst →
      lookup (deep_merge m u) k = lookup m k := by
  induction u with
  | nil => intro m k _; rw [deep_merge_nil]
  | cons p rest ih =>
    obtain ⟨k0, v0⟩ := p
    intro m k hk
    rw [List.map_cons, List.mem_cons, not_or] at hk
    rw [deep_merge_cons]
    split
    all_goals rw [ih _ _ hk.2, lookup_setKey_ne _ _ _ _ (Ne.symm hk.1)]

theorem deep_merge_cons_dict (m : List (String × Val)) (k : String)
    (bd ud rest : List (String × Val)) (heq : lookup m k = some (Val.dict bd)) :
    deep_merge m ((k, Val.dict ud) :: rest) =
      deep_merge (setKey m k (Val.dict (deep_merge bd ud))) rest := by
  rw [deep_merge_cons, heq]

theorem deep_merge_cons_other (m : List (String × Val)) (k : String) (v : Val)
    (rest : List (String × Val))
    (hother : ∀ bd ud, lookup m k = some (Val.dict bd) → v = Val.dict ud → False) :
    deep_merge m ((k, v) :: rest) = deep_merge (setKey m k v) rest := by
  rw [deep_merge_cons]
  cases heqb : lookup m k with
  | none => cases v <;> rfl
  | some bv =>
    cases bv <;> cases v <;> first
      | rfl
      | exact (hother _ _ heqb rfl).elim

theorem mergeVal_other (ob : Option Val) (uv : Val)
    (hother : ∀ bd ud, ob = some (Val.dict bd) → uv = Val.dict ud → False) :
    mergeVal ob uv = uv := by
  cases ob with
  | none => cases uv <;> rfl
  | some bv =>
    cases bv <;> cases uv <;> first
      | rfl
      | exact (hother _ _ rfl rfl).elim

theorem shallow_overlay_nil (base : List (String × Val)) :
    shallow_overlay base [] = base := rfl

theorem shallow_overlay_cons (base : List (String × Val)) (k : String) (v : Val)
    (rest : List (String × Val)) :
    shallow_overlay base ((k, v) :: rest) = shallow_overlay (setKey base k v) rest := rfl

/-- Claim C2: `deep_merge base update` is characterised key by key — a key
absent from `update` keeps its `base` binding unchanged; a key of `update`
whose update value and whose `base` binding are both mappings is bound to
the recursive merge of the two; any other key of `update` is bound to its
update value wholesale (lists and scalars replaced, keys new to `base`
added) — hence the merge is right-biased at every depth.  The `Nodup`
hypothesis is the unique-key invariant of Python dictionaries. -/
theorem deep_merge_lookup_characterization (update : List (String × Val)) :
    ∀ base : List (String × Val), (update.map Prod.fst).Nodup → ∀ k : String,
      lookup (deep_merge base update) k =
        match lookup update k with
        | none => lookup base k
        | some uv => some (mergeVal (lookup base k) uv) := by
  induction update with
  | nil =>
    intro base _ k
    rw [deep_merge_nil]
    simp [lookup]
  | cons p rest ih =>
    obtain ⟨k0, v0⟩ := p
    intro base hnd k
    rw [List.map_cons, List.nodup_cons] at hnd
    obtain ⟨hk0, hndr⟩ := hnd
    by_cases hdd : ∃ bd ud, lookup base k0 = some (Val.dict bd) ∧ v0 = Val.dict ud
    · obtain ⟨bd, ud, heq, hv⟩ := hdd
      subst hv
      rw [deep_merge_cons_dict base k0 bd ud rest heq]
      by_cases hkk : k0 = k
      · subst hkk
        rw [lookup_deep_merge_not_mem rest _ _ hk0, lookup_setKey_self,
          show lookup ((k0, Val.dict ud) :: rest) k0 = some (Val.dict ud) from
            by simp [lookup]]
        show some (Val.dict (deep_merge bd ud)) =
          some (mergeVal (lookup base k0) (Val.dict ud))
        rw [heq]
        rfl
      · rw [ih _ hndr k, lookup_setKey_ne _ _ _ _ hkk,
          show lookup ((k0, Val.dict ud) :: rest) k = lookup rest k from
            by simp [lookup, hkk]]
    · have hother : ∀ bd ud, lookup base k0 = some (Val.dict bd) →
          v0 = Val.dict ud → False :=
        fun bd ud h1 h2 => hdd ⟨bd, ud, h1, h2⟩
      rw [deep_merge_cons_other base k0 v0 rest hother]
      by_cases hkk : k0 = k
      · subst hkk
        rw [lookup_deep_merge_not_mem rest _ _ hk0, lookup_setKey_self,
          show lookup ((k0, v0) :: rest) k0 = some v0 from by simp [lookup]]
        show some v0 = some (mergeVal (lookup base k0) v0)
        rw [mergeVal_other _ _ hother]
      · rw [ih _ hndr k, lookup_setKey_ne _ _ _ _ hkk,
          show lookup ((k0, v0) :: rest) k = lookup rest k from
            by simp [lookup, hkk]]

/-- Witness for C2 at the spec's own example:
`merge({a:{x:1,y:2}}, {a:{y:3}}) = {a:{x:1,y:3}}`. -/
theorem deep_merge_lookup_characterization_witness :
    (([("a", Val.dict [("y", Val.int 3)])].map Prod.fst).Nodup) ∧
    lookup (deep_merge [("a", Val.dict [("x", Val.int 1), ("y", Val.int 2)])]
        [("a", Val.dict [("y", Val.int 3)])]) "a" =
      some (Val.dict [("x", Val.int 1), ("y", Val.int 3)]) := by
  refine ⟨by simp, ?_⟩
  rw [deep_merge_lookup_characterization
    [("a", Val.dict [("y", Val.int 3)])]
    [("a", Val.dict [("x", Val.int 1), ("y", Val.int 2)])] (by simp) "a"]
  simp [lookup, mergeVal, deep_merge, setKey]

/-- Claim C8: when no key of `update` carries a nested mapping while the same
key carries a nested mapping in `base`, `deep_merge` coincides with the
shallow overlay of `update`'s top-level keys onto `base`. -/
theorem deep_merge_eq_shallow_overlay (update : List (String × Val)) :
    ∀ base : List (String × Val), (update.map Prod.fst).Nodup →
      (∀ k ud bd, (k, Val.dict ud) ∈ update →
        lookup base k = some (Val.dict bd) → False) →
      deep_merge base update = shallow_overlay base update := by
  induction update with
  | nil => intro base _ _; rw [deep_merge_nil, shallow_overlay_nil]
  | cons p rest ih =>
    obtain ⟨k0, v0⟩ := p
    intro base hnd hsep
    rw [List.map_cons, List.nodup_cons] at hnd
    obtain ⟨hk0, hndr⟩ := hnd
    by_cases hdd : ∃ bd ud, lookup base k0 = some (Val.dict bd) ∧ v0 = Val.dict ud
    · obtain ⟨bd, ud, heq, hv⟩ := hdd
      exact (hsep k0 ud bd (hv ▸ List.mem_cons_self _ _) heq).elim
    · have hother : ∀ bd ud, lookup base k0 = some (Val.dict bd) →
          v0 = Val.dict ud → False :=
        fun bd ud h1 h2 => hdd ⟨bd, ud, h1, h2⟩
      rw [deep_merge_cons_other base k0 v0 rest hother, shallow_overlay_cons]
      refine ih (setKey base k0 v0) hndr ?_
      intro k ud bd hmem heq
      have hkne : k0 ≠ k := by
        intro h
        subst h
        exact hk0 (List.mem_map.mpr ⟨(k0, Val.dict ud), hmem, rfl⟩)
      rw [lookup_setKey_ne _ _ _ _ hkne] at heq
      exact hsep k ud bd (List.mem_cons_of_mem _ hmem) heq

/-- Witness for C8: a dict-free update overlays shallowly. -/
theorem deep_merge_eq_shallow_overlay_witness :
    deep_merge [("a", Val.int 1), ("b", Val.dict [("c", Val.int 2)])]
        [("a", Val.int 5), ("d", Val.list [])] =
      shallow_overlay [("a", Val.int 1), ("b", Val.dict [("c", Val.int 2)])]
        [("a", Val.int 5), ("d", Val.list [])] := by
  refine deep_merge_eq_shallow_overlay _ _ (by simp) ?_
  intro k ud bd hmem heq
  simp [List.mem_cons] at hmem

/-! ## The locator: claim C1 -/

theorem findFirstFile_eq_find (ex : Dir → String → Bool) (d : Dir) :
    ∀ fns : List String, findFirstFile ex d fns = fns.find? (fun fn => ex d fn) := by
  intro fns
  induction fns with
  | nil => rfl
  | cons fn rest ih =>
    cases h : ex d fn <;> simp [findFirstFile, List.find?_cons, h, ih]

theorem findFirstFile_exists (ex : Dir → String → Bool) (d : Dir) :
    ∀ (fns : List String) (fn : String),
      findFirstFile ex d fns = some fn → ex d fn = true := by
  intro fns
  induction fns with
  | nil => intro fn h; simp [findFirstFile] at h
  | cons f rest ih =>
    intro fn h
    cases hf : ex d f with
    | true =>
      simp [findFirstFile, hf] at h
      rw [← h]
      exact hf
    | false =>
      simp [findFirstFile, hf] at h
      exact ih fn h

theorem findConfigAux_exists (ex : Dir → String → Bool) (fns : List String) :
    ∀ (dirs d : Dir) (fn : String),
      findConfigAux ex fns dirs = some (d, fn) → ex d fn = true := by
  intro dirs
  induction dirs with
  | nil => intro d fn h; simp [findConfigAux] at h
  | cons c rest ih =>
    intro d fn h
    cases hf : findFirstFile ex (c :: rest) fns with
    | some f2 =>
      simp [findConfigAux, hf] at h
      obtain ⟨h1, h2⟩ := h
      subst h1
      subst h2
      exact findFirstFile_exists ex (c :: rest) fns f2 hf
    | none =>
      simp [findConfigAux, hf] at h
      exact ih d fn h

/-- Counterexample to claim C1 as stated: the root directory `[]` is its own
parent and holds a candidate file, the working directory `["home"]` is one
level below it, yet `_find_config` returns `not found` — the loop guard
`current_dir != current_dir.parent` fails at the root, so the root is never
examined and the claim's "up to and including the filesystem root" is false. -/
theorem findConfigAux_root_counterexample :
    List.tail (["home"] : Dir) = ([] : Dir) ∧
    List.tail ([] : Dir) = ([] : Dir) ∧
    (fun (d : Dir) (_ : String) => d.isEmpty) [] "mcp-agent.config.yaml" = true ∧
    findConfigAux (fun (d : Dir) (_ : String) => d.isEmpty)
      ["mcp-agent.config.yaml"] ["home"] = none :=
  ⟨rfl, rfl, rfl, rfl⟩

/-- Claim C1 (amended): the locator examines the working directory and then
each successive parent, up to but excluding the filesystem root; at each
examined directory it tests the candidates in the given order and returns
the first existing match immediately (so a match in the working directory is
preferred to one in a parent), and if no candidate exists at any examined
level it returns `not found` rather than raising. -/
theorem findConfigAux_characterization (ex : Dir → String → Bool)
    (filenames : List String) :
    ∀ cwd : Dir,
      findConfigAux ex filenames cwd =
        (examinedDirs cwd).findSome?
          (fun d => (filenames.find? (fun fn => ex d fn)).map
            (fun fn => (d, fn))) := by
  intro cwd
  induction cwd with
  | nil => rfl
  | cons c rest ih =>
    cases hf : filenames.find? (fun fn => ex (c :: rest) fn) with
    | none =>
      simp [findConfigAux, examinedDirs, List.findSome?_cons,
        findFirstFile_eq_find, hf, ih]
    | some fn =>
      simp [findConfigAux, examinedDirs, List.findSome?_cons,
        findFirstFile_eq_find, hf]

/-! ## The resolver: claims C3, C4, C5, C9 -/

theorem find_secrets_fexists (fs : FS) (sf : FPath)
    (h : find_secrets fs = some sf) : fs.fexists sf = true := by
  unfold find_secrets at h
  cases haux : findConfigAux (fun d fn => fs.fexists (FPath.located d fn))
      secretsFilenames fs.cwd with
  | none => rw [haux] at h; simp at h
  | some p =>
    obtain ⟨d, fn⟩ := p
    rw [haux] at h
    simp at h
    rw [← h]
    exact findConfigAux_exists _ secretsFilenames fs.cwd d fn haux

/-- Claim C3: `get_settings` is a strict process-wide memoization — with the
cache slot set to `s`, any call returns exactly `s`, re-stores `s`, and
performs no filesystem operation at all, whatever the `config_path` argument
and whatever the state of the files; and after any call whatsoever the slot
holds exactly the returned object, so the slot never returns to the
uninitialized state. -/
theorem get_settings_memoized :
    (∀ (fs : FS) (s : Settings) (cp : Option String),
      get_settings fs (some s) cp = ⟨s, some s, []⟩) ∧
    (∀ (fs : FS) (st : Option Settings) (cp : Option String),
      (get_settings fs st cp).slot = some (get_settings fs st cp).ret) := by
  refine ⟨fun fs s cp => rfl, fun fs st cp => ?_⟩
  cases st with
  | some s => rfl
  | none =>
    cases cp with
    | none =>
      cases hfc : find_config fs with
      | none => simp [get_settings, hfc]
      | some cf =>
        cases h : fs.fexists cf with
        | false => simp [get_settings, hfc, h]
        | true =>
          cases hfs : find_secrets fs with
          | none => simp [get_settings, hfc, h, hfs]
          | some sf =>
            cases h2 : fs.fexists sf with
            | false => simp [get_settings, hfc, h, hfs, h2]
            | true => simp [get_settings, hfc, h, hfs, h2]
    | some p =>
      by_cases hp : p = ""
      · subst hp
        cases hfc : find_config fs with
        | none => simp [get_settings, hfc]
        | some cf =>
          cases h : fs.fexists cf with
          | false => simp [get_settings, hfc, h]
          | true =>
            cases hfs : find_secrets fs with
            | none => simp [get_settings, hfc, h, hfs]
            | some sf =>
              cases h2 : fs.fexists sf with
              | false => simp [get_settings, hfc, h, hfs, h2]
              | true => simp [get_settings, hfc, h, hfs, h2]
      · cases h : fs.fexists (FPath.explicit p) with
        | false => simp [get_settings, hp, h]
        | true =>
          cases hfs : find_secrets fs with
          | none => simp [get_settings, hp, h, hfs]
          | some sf =>
            cases h2 : fs.fexists sf with
            | false => simp [get_settings, hp, h, hfs, h2]
            | true => simp [get_settings, hp, h, hfs, h2]

/-- Claim C4: on a first resolution, a supplied config path that does not
exist, or no supplied path with the locator finding nothing, does not raise:
the returned settings object is built from the empty tree, every field at
its declared default (`execution_engine == "asyncio"`,
`logger.level == "info"`). -/
theorem get_settings_defaults_when_missing :
    ∀ fs : FS,
      (∀ p : String, p ≠ "" → fs.fexists (FPath.explicit p) = false →
        (get_settings fs none (some p)).ret = Settings.mk [] ∧
        (get_settings fs none (some p)).ret.execution_engine = "asyncio" ∧
        (get_settings fs none (some p)).ret.logger_level = "info") ∧
      (find_config fs = none →
        (get_settings fs none none).ret = Settings.mk [] ∧
        (get_settings fs none none).ret.execution_engine = "asyncio" ∧
        (get_settings fs none none).ret.logger_level = "info") := by
  intro fs
  constructor
  · intro p hp hex
    have hret : (get_settings fs none (some p)).ret = Settings.mk [] := by
      simp [get_settings, hp, hex]
    refine ⟨hret, ?_, ?_⟩ <;> rw [hret] <;> rfl
  · intro hfc
    have hret : (get_settings fs none none).ret = Settings.mk [] := by
      simp [get_settings, hfc]
    refine ⟨hret, ?_, ?_⟩ <;> rw [hret] <;> rfl

/-- Witness for C4 at `resolve("/nonexistent/path.yaml")` on a filesystem
with no files. -/
theorem get_settings_defaults_when_missing_witness :
    ("/nonexistent/path.yaml" ≠ "") ∧
    fsEmpty.fexists (FPath.explicit "/nonexistent/path.yaml") = false ∧
    (get_settings fsEmpty none
      (some "/nonexistent/path.yaml")).ret.execution_engine = "asyncio" ∧
    (get_settings fsEmpty none
      (some "/nonexistent/path.yaml")).ret.logger_level = "info" := by
  refine ⟨by decide, rfl, ?_, ?_⟩
  · exact ((get_settings_defaults_when_missing fsEmpty).1
      "/nonexistent/path.yaml" (by decide) rfl).2.1
  · exact ((get_settings_defaults_when_missing fsEmpty).1
      "/nonexistent/path.yaml" (by decide) rfl).2.2

/-- Claim C9: when no config file is determined (no path supplied and the
locator finds nothing, or the supplied path does not exist), `get_settings`
never invokes the secrets locator and never reads any file — the full event
trace is at most the config-locator call — and the result is all-defaults,
whatever secrets files exist. -/
theorem get_settings_ignores_secrets_without_config :
    ∀ fs : FS,
      (find_config fs = none →
        get_settings fs none none =
          ⟨Settings.mk [], some (Settings.mk []), [Event.locateConfig]⟩) ∧
      (∀ p : String, p ≠ "" → fs.fexists (FPath.explicit p) = false →
        get_settings fs none (some p) =
          ⟨Settings.mk [], some (Settings.mk []), []⟩) := by
  intro fs
  constructor
  · intro hfc
    simp [get_settings, hfc]
  · intro p hp hex
    simp [get_settings, hp, hex]

/-- Witness for C9 on a filesystem where a secrets file exists but no config
file does: the secrets locator is never invoked, nothing is read. -/
theorem get_settings_ignores_secrets_without_config_witness :
    find_secrets fsSecretsOnly =
      some (FPath.located ["home"] "mcp-agent.secrets.yaml") ∧
    find_config fsSecretsOnly = none ∧
    get_settings fsSecretsOnly none none =
      ⟨Settings.mk [], some (Settings.mk []), [Event.locateConfig]⟩ :=
  ⟨rfl, rfl, (get_settings_ignores_secrets_without_config fsSecretsOnly).1 rfl⟩

/-- Claim C5: when the config file exists and the secrets locator finds a
file, the returned settings are built from `deep_merge` of the secrets tree
over the config tree (config as base, secrets as update), so secrets values
take precedence at every matching path. -/
theorem get_settings_merges_secrets_over_config (fs : FS) (p : String)
    (hp : p ≠ "") (hex : fs.fexists (FPath.explicit p) = true)
    (sf : FPath) (hsf : find_secrets fs = some sf) :
    (get_settings fs none (some p)).ret =
      Settings.mk (deep_merge (fs.read (FPath.explicit p)) (fs.read sf)) := by
  have hsfex : fs.fexists sf = true := find_secrets_fexists fs sf hsf
  simp [get_settings, hp, hex, hsf, hsfex]

/-- Witness for C5 at the spec's end-to-end example: config
`{openai: {api_key: "cfg-key"}}` with secrets
`{openai: {api_key: "secret-key"}}` resolves `openai.api_key` to
`"secret-key"`. -/
theorem get_settings_merges_secrets_over_config_witness :
    (get_settings fsCfgSecrets none (some "/proj/config.yaml")).ret =
      Settings.mk (deep_merge
        [("openai", Val.dict [("api_key", Val.str "cfg-key")])]
        [("openai", Val.dict [("api_key", Val.str "secret-key")])]) ∧
    (get_settings fsCfgSecrets none
      (some "/proj/config.yaml")).ret.openai_api_key = some "secret-key" := by
  have hmain := get_settings_merges_secrets_over_config fsCfgSecrets
    "/proj/config.yaml" (by decide) rfl
    (FPath.located ["proj"] "mcp-agent.secrets.yaml") rfl
  have hinner : deep_merge [("api_key", Val.str "cfg-key")]
      [("api_key", Val.str "secret-key")] = [("api_key", Val.str "secret-key")] := by
    rw [deep_merge_cons_other [("api_key", Val.str "cfg-key")] "api_key"
      (Val.str "secret-key") [] (fun bd ud h1 h2 => Val.noConfusion h2),
      deep_merge_nil]
    rfl
  have houter : deep_merge
      [("openai", Val.dict [("api_key", Val.str "cfg-key")])]
      [("openai", Val.dict [("api_key", Val.str "secret-key")])] =
      [("openai", Val.dict [("api_key", Val.str "secret-key")])] := by
    rw [deep_merge_cons_dict
      [("openai", Val.dict [("api_key", Val.str "cfg-key")])] "openai"
      [("api_key", Val.str "cfg-key")] [("api_key", Val.str "secret-key")]
      [] rfl, deep_merge_nil, hinner]
    rfl
  refine ⟨hmain, ?_⟩
  rw [hmain]
  show (Settings.mk (deep_merge
      [("openai", Val.dict [("api_key", Val.str "cfg-key")])]
      [("openai", Val.dict [("api_key", Val.str "secret-key")])])).openai_api_key =
    some "secret-key"
  rw [houter]
  rfl

/-! ## `MCPRootSettings` validation: claims C6 and C10 -/

/-- Counterexample to claim C6 as stated: a record whose `uri`
`"file:///tmp/x"` does start with `file://` still fails construction,
because the supplied `server_uri_alias` `"http://x"` is validated by the
same `@field_validator("uri", "server_uri_alias")` — so "fails if and only
if the uri lacks the prefix" is false. -/
theorem mkMCPRootSettings_uri_iff_counterexample :
    strStartsWith "file:///tmp/x" "file://" = true ∧
    (mkMCPRootSettings "file:///tmp/x" none (some "http://x")).isOk = false :=
  ⟨rfl, rfl⟩

/-- Claim C6 (amended): construction of `MCPRootSettings` fails with a
validation error if and only if the supplied `uri` does not start with
`file://`, or a `server_uri_alias` is supplied that does not start with
`file://`; in particular `uri = "file:///tmp/x"` with no alias succeeds. -/
theorem mkMCPRootSettings_fails_iff (uri : String) (nm : Option String)
    (al : Option String) :
    (mkMCPRootSettings uri nm al).isOk = false ↔
      (strStartsWith uri "file://" = false ∨
        ∃ a, al = some a ∧ strStartsWith a "file://" = false) := by
  cases hu : strStartsWith uri "file://" with
  | false => simp [mkMCPRootSettings, validate_uri, hu, Except.isOk, Except.toBool]
  | true =>
    cases al with
    | none => simp [mkMCPRootSettings, validate_uri, hu, Except.isOk, Except.toBool]
    | some a =>
      cases ha : strStartsWith a "file://" with
      | false => simp [mkMCPRootSettings, validate_uri, hu, ha, Except.isOk, Except.toBool]
      | true => simp [mkMCPRootSettings, validate_uri, hu, ha, Except.isOk, Except.toBool]

/-- Claim C10: the `file://` validation also applies to `server_uri_alias` —
supplying an alias without the prefix fails construction even when `uri` is
valid. -/
theorem mkMCPRootSettings_alias_validated (uri : String) (nm : Option String)
    (a : String) (hu : strStartsWith uri "file://" = true)
    (ha : strStartsWith a "file://" = false) :
    (mkMCPRootSettings uri nm (some a)).isOk = false := by
  simp [mkMCPRootSettings, validate_uri, hu, ha, Except.isOk, Except.toBool]

/-- Witness for C10 at `uri = "file:///tmp/x"`,
`server_uri_alias = "http://x"`. -/
theorem mkMCPRootSettings_alias_validated_witness :
    strStartsWith "file:///tmp/x" "file://" = true ∧
    strStartsWith "http://x" "file://" = false ∧
    (mkMCPRootSettings "file:///tmp/x" none (some "http://x")).isOk = false :=
  ⟨rfl, rfl, mkMCPRootSettings_alias_validated "file:///tmp/x" none "http://x" rfl rfl⟩

/-! ## The heap-level frame property: claim C7 -/

theorem hSetItem_length (h : Heap) (a : Nat) (k : String) (v : HVal) :
    (hSetItem h a k v).length = h.length := by
  unfold hSetItem
  cases h2 : h[a]? with
  | none => rfl
  | some obj => simp

theorem hSetItem_getElem_ne (h : Heap) (a : Nat) (k : String) (v : HVal)
    (i : Nat) (hne : i ≠ a) : (hSetItem h a k v)[i]? = h[i]? := by
  unfold hSetItem
  cases h2 : h[a]? with
  | none => rfl
  | some obj => exact List.getElem?_set_ne (Ne.symm hne)

/-- The item loop only allocates and mutates the object at `aM`: every other
pre-existing address is untouched, provided the recursive call `rec` itself
never touches pre-existing addresses. -/
theorem hMergeItems_frame (rec : Heap → Nat → Nat → Option (Heap × Nat))
    (hrec : ∀ (h : Heap) (a b : Nat) (r : Heap × Nat), rec h a b = some r →
      h.length ≤ r.1.length ∧ ∀ i, i < h.length → r.1[i]? = h[i]?) :
    ∀ (l : List (String × HVal)) (h : Heap) (aM : Nat) (r : Heap × Nat),
      hMergeItems rec h aM l = some r →
      h.length ≤ r.1.length ∧
        ∀ i, i < h.length → i ≠ aM → r.1[i]? = h[i]? := by
  intro l
  induction l with
  | nil =>
    intro h aM r hr
    simp only [hMergeItems] at hr
    have := Option.some.inj hr
    subst this
    exact ⟨le_refl _, fun i hi hia => rfl⟩
  | cons p rest ih =>
    obtain ⟨k, v⟩ := p
    intro h aM r hr
    simp only [hMergeItems] at hr
    cases hm : h[aM]? with
    | none =>
      simp only [hm] at hr
      exact Option.noConfusion hr
    | some mObj =>
      simp only [hm] at hr
      cases hd : dictPair (lookupKeyH mObj k) v with
      | none =>
        simp only [hd] at hr
        obtain ⟨hlen, hget⟩ := ih (hSetItem h aM k v) aM r hr
        rw [hSetItem_length] at hlen
        refine ⟨hlen, fun i hi hia => ?_⟩
        rw [hget i (by rw [hSetItem_length]; exact hi) hia,
          hSetItem_getElem_ne h aM k v i hia]
      | some bu =>
        simp only [hd] at hr
        cases hrec2 : rec h bu.1 bu.2 with
        | none =>
          simp only [hrec2] at hr
          exact Option.noConfusion hr
        | some r2 =>
          simp only [hrec2] at hr
          obtain ⟨hlen1, hget1⟩ := hrec h bu.1 bu.2 r2 hrec2
          obtain ⟨hlen2, hget2⟩ := ih (hSetItem r2.1 aM k (HVal.ref r2.2)) aM r hr
          rw [hSetItem_length] at hlen2
          refine ⟨le_trans hlen1 hlen2, fun i hi hia => ?_⟩
          rw [hget2 i (by rw [hSetItem_length]; omega) hia,
            hSetItem_getElem_ne r2.1 aM k (HVal.ref r2.2) i hia,
            hget1 i hi]

/-- A successful heap-level merge only ever appends fresh objects and
mutates fresh objects: every address that existed before the call still
holds exactly its old object afterwards. -/
theorem hDeepMerge_frame :
    ∀ (fuel : Nat) (h : Heap) (aBase aUpd : Nat) (r : Heap × Nat),
      hDeepMerge fuel h aBase aUpd = some r →
      h.length ≤ r.1.length ∧ ∀ i, i < h.length → r.1[i]? = h[i]? := by
  intro fuel
  induction fuel with
  | zero => intro h a b r hr; simp [hDeepMerge] at hr
  | succ fuel ih =>
    intro h aBase aUpd r hr
    simp only [hDeepMerge] at hr
    cases hb : h[aBase]? with
    | none =>
      simp only [hb] at hr
      exact Option.noConfusion hr
    | some baseObj =>
      simp only [hb] at hr
      cases hu : h[aUpd]? with
      | none =>
        simp only [hu] at hr
        exact Option.noConfusion hr
      | some updObj =>
        simp only [hu] at hr
        obtain ⟨hlen, hget⟩ := hMergeItems_frame (hDeepMerge fuel) ih updObj
          (h ++ [baseObj]) h.length r hr
        simp only [List.length_append, List.length_cons, List.length_nil] at hlen
        refine ⟨by omega, fun i hi => ?_⟩
        rw [hget i (by simp; omega) (by omega)]
        exact List.getElem?_append_left hi

/-- Claim C7: `deep_merge` leaves its `base` argument observably unchanged —
on the heap model, a run of the merge preserves the content of every
pre-existing address, in particular the `base` dict and all of its nested
substructure; only the freshly copied objects are written to. -/
theorem deep_merge_base_unchanged (fuel : Nat) (h : Heap) (aBase aUpd : Nat)
    (r : Heap × Nat) (hrun : hDeepMerge fuel h aBase aUpd = some r) :
    ∀ a, a < h.length → r.1[a]? = h[a]? :=
  fun a ha => (hDeepMerge_frame fuel h aBase aUpd r hrun).2 a ha

/-- Witness for C7 on the concrete heap `heapExample`
(`deep_merge({a:{x:1,y:2}}, {a:{y:3}})`): the run succeeds and the base
object (address 0) and its nested dict (address 1) are unchanged. -/
theorem deep_merge_base_unchanged_witness :
    hDeepMerge 3 heapExample 0 2 = some heapExampleOut ∧
    heapExampleOut.1[0]? = heapExample[0]? ∧
    heapExampleOut.1[1]? = heapExample[1]? := by
  refine ⟨rfl, ?_, ?_⟩
  · exact deep_merge_base_unchanged 3 heapExample 0 2 heapExampleOut rfl 0 (by decide)
  · exact deep_merge_base_unchanged 3 heapExample 0 2 heapExampleOut rfl 1 (by decide)

end McpAgent
